import Mathlib

/-!
# Verification of the software-rasterizer and camera core

A shallow embedding, in Lean 4, of the parts of the renderer relevant to the
checked properties:

* `src/triangle.rs` — triangle rasterizer (bounding box, edge function,
  barycentric coverage and interpolation), embedded over `ℚ` (the Rust code
  computes in `f32`; all operations used here are field operations, `floor`,
  `ceil`, `min`/`max` and comparisons, which we model exactly over `ℚ`).
* `src/line.rs` — error-accumulator line rasterizer, integer state over `ℤ`.
* `src/shaders.rs` — vertex shader (matrix pipeline, perspective divide,
  NDC clamps, screen mapping), over `ℚ`.
* `src/fragment_shaders.rs` — hash / value-noise primitives, over `ℝ`
  (they use `sin`).
* `src/camera.rs` — camera state machine (warp, follow, rotate, collision),
  over `ℝ` (it uses `sqrt`, `atan2`, `asin`, `cos`, `sin`).

`f32::sqrt` has no rational counterpart; where a rational-world function
needs it (renormalization of interpolated normals, which never affects the
properties proved here) it is passed explicitly as a function parameter
`sqrtFn : ℚ → ℚ`.

The repository's `color.rs`, `fragment.rs` and `vertex.rs` only declare the
plain data carriers `Color`, `Fragment` and `Vertex`; those files are not
part of the sources provided, so the three structures are modelled from the
specification (each carries a note saying so).
-/

/-! ## Small vector types (nalgebra_glm `Vec2` / `Vec3`, components modelled exactly) -/

@[ext]
structure V2 (α : Type) where
  x : α
  y : α
deriving DecidableEq

@[ext]
structure V3 (α : Type) where
  x : α
  y : α
  z : α
deriving DecidableEq

/-- Componentwise sum, `nalgebra` vector `+`. -/
def V3.add {α : Type} [Add α] (a b : V3 α) : V3 α := ⟨a.x + b.x, a.y + b.y, a.z + b.z⟩

/-- Componentwise difference, `nalgebra` vector `-`. -/
def V3.sub {α : Type} [Sub α] (a b : V3 α) : V3 α := ⟨a.x - b.x, a.y - b.y, a.z - b.z⟩

/-- Scalar multiple, `nalgebra` `vector * scalar`. -/
def V3.smul {α : Type} [Mul α] (k : α) (a : V3 α) : V3 α := ⟨k * a.x, k * a.y, k * a.z⟩

/-- `f32::clamp(lo, hi)`: `lo` if below, `hi` if above, the value otherwise
(for `lo ≤ hi`, and away from NaN, this is `max lo (min x hi)`). -/
def fclamp {α : Type} [LinearOrder α] (x lo hi : α) : α := max lo (min x hi)

/-! ## Data carriers (files `color.rs`, `fragment.rs`, `vertex.rs`) -/

/-- Modelled from the spec: `color.rs` is not among the provided sources.
§2 describes `Color` as "RGB value, interconvertible between float triple,
packed integer, and byte triple"; only the byte-triple constructor
`Color::new(r, g, b)` is used by the rasterizers. -/
@[ext]
structure Color where
  r : ℕ
  g : ℕ
  b : ℕ
deriving DecidableEq

/-- `Color::new`. -/
def Color.new (r g b : ℕ) : Color := ⟨r, g, b⟩

/-- Modelled from the spec: `fragment.rs` is not among the provided sources.
§2: "Fragment: a rasterized sample (screen x, y, color, depth)"; the
rasterizers build it with `Fragment::new(x, y, color, depth)` where `x`, `y`
and `depth` are `f32` (modelled as `ℚ`). -/
@[ext]
structure Fragment where
  x : ℚ
  y : ℚ
  color : Color
  depth : ℚ
deriving DecidableEq

/-- `Fragment::new`. -/
def Fragment.new (x y : ℚ) (color : Color) (depth : ℚ) : Fragment := ⟨x, y, color, depth⟩

/-- Modelled from the spec: `vertex.rs` is not among the provided sources.
§3: model-space `position`/`normal`/`tex_coords`/`color` plus the
post-transform fields `transformed_position`, `transformed_normal`,
`world_position` (same type reused for both roles). -/
@[ext]
structure Vertex where
  position : V3 ℚ
  normal : V3 ℚ
  tex_coords : V2 ℚ
  color : Color
  transformed_position : V3 ℚ
  transformed_normal : V3 ℚ
  world_position : V3 ℚ
deriving DecidableEq

/-! ## Triangle rasterizer (`src/triangle.rs`) -/

/-- `triangle.rs::edge_function`. -/
def edge_function (a b c : V3 ℚ) : ℚ :=
  (c.x - a.x) * (b.y - a.y) - (c.y - a.y) * (b.x - a.x)

/-- `triangle.rs::barycentric_coordinates`. -/
def barycentric_coordinates (p a b c : V3 ℚ) (area : ℚ) : ℚ × ℚ × ℚ :=
  (edge_function b c p / area, edge_function c a p / area, edge_function a b p / area)

/-- The coordinate clamp inside `calculate_bounding_box`:
`|x: f32| x.clamp(-10000.0, 20000.0)`. -/
def clamp_coord (x : ℚ) : ℚ := fclamp x (-10000) 20000

/-- `triangle.rs::calculate_bounding_box`. After clamping to
`[-10000, 20000]`, `.floor() as i32` / `.ceil() as i32` are exact (the value
is integral and in `i32` range), modelled as `Int.floor` / `Int.ceil`. -/
def calculate_bounding_box (v1 v2 v3 : V3 ℚ) : ℤ × ℤ × ℤ × ℤ :=
  let v1x := clamp_coord v1.x
  let v1y := clamp_coord v1.y
  let v2x := clamp_coord v2.x
  let v2y := clamp_coord v2.y
  let v3x := clamp_coord v3.x
  let v3y := clamp_coord v3.y
  (⌊min (min v1x v2x) v3x⌋, ⌊min (min v1y v2y) v3y⌋,
   ⌈max (max v1x v2x) v3x⌉, ⌈max (max v1y v2y) v3y⌉)

/-- `fragment_shaders.rs::FragmentShader`: the function-pointer type
`fn(&Vertex, &Vertex, &Vertex, Vec3, Vec3, Vec3, Vec2) -> Color`. -/
def FragmentShader : Type :=
  Vertex → Vertex → Vertex → V3 ℚ → V3 ℚ → V3 ℚ → V2 ℚ → Color

/-- `nalgebra` `magnitude_squared()`. -/
def magnitude_squared (v : V3 ℚ) : ℚ := v.x * v.x + v.y * v.y + v.z * v.z

/-- `nalgebra` `normalize()` = `self / self.magnitude()`; the `f32` square
root is supplied as `sqrtFn`. -/
def normalizeWith (sqrtFn : ℚ → ℚ) (v : V3 ℚ) : V3 ℚ :=
  let m := sqrtFn (magnitude_squared v)
  ⟨v.x / m, v.y / m, v.z / m⟩

/-- The normal interpolation inside the pixel loop of
`triangle_with_shader` (before the conditional renormalization). -/
def interpolated_normal (v1 v2 v3 : Vertex) (w1 w2 w3 : ℚ) : V3 ℚ :=
  ⟨v1.transformed_normal.x * w1 + v2.transformed_normal.x * w2 + v3.transformed_normal.x * w3,
   v1.transformed_normal.y * w1 + v2.transformed_normal.y * w2 + v3.transformed_normal.y * w3,
   v1.transformed_normal.z * w1 + v2.transformed_normal.z * w2 + v3.transformed_normal.z * w3⟩

/-- The model-space position interpolation inside the pixel loop. -/
def interpolated_position (v1 v2 v3 : Vertex) (w1 w2 w3 : ℚ) : V3 ℚ :=
  ⟨v1.position.x * w1 + v2.position.x * w2 + v3.position.x * w3,
   v1.position.y * w1 + v2.position.y * w2 + v3.position.y * w3,
   v1.position.z * w1 + v2.position.z * w2 + v3.position.z * w3⟩

/-- The world-position interpolation inside the pixel loop. -/
def interpolated_world_position (v1 v2 v3 : Vertex) (w1 w2 w3 : ℚ) : V3 ℚ :=
  ⟨v1.world_position.x * w1 + v2.world_position.x * w2 + v3.world_position.x * w3,
   v1.world_position.y * w1 + v2.world_position.y * w2 + v3.world_position.y * w3,
   v1.world_position.z * w1 + v2.world_position.z * w2 + v3.world_position.z * w3⟩

/-- The texture-coordinate interpolation inside the pixel loop. -/
def interpolated_tex_coords (v1 v2 v3 : Vertex) (w1 w2 w3 : ℚ) : V2 ℚ :=
  ⟨v1.tex_coords.x * w1 + v2.tex_coords.x * w2 + v3.tex_coords.x * w3,
   v1.tex_coords.y * w1 + v2.tex_coords.y * w2 + v3.tex_coords.y * w3⟩

/-- The depth interpolation inside the pixel loop:
`a.z * w1 + b.z * w2 + c.z * w3`. -/
def interpolated_depth (a b c : V3 ℚ) (w1 w2 w3 : ℚ) : ℚ :=
  a.z * w1 + b.z * w2 + c.z * w3

/-- The body of the per-pixel loop of `triangle_with_shader`: barycentric
weights at the pixel center, the `[0,1]` coverage test, attribute
interpolation, shader invocation, fragment emission. -/
def pixel_fragment (sqrtFn : ℚ → ℚ) (fshader : FragmentShader) (v1 v2 v3 : Vertex)
    (a b c : V3 ℚ) (area : ℚ) (x y : ℤ) : Option Fragment :=
  let point : V3 ℚ := ⟨(x : ℚ) + 1/2, (y : ℚ) + 1/2, 0⟩
  let w := barycentric_coordinates point a b c area
  let w1 := w.1
  let w2 := w.2.1
  let w3 := w.2.2
  if 0 ≤ w1 ∧ w1 ≤ 1 ∧ 0 ≤ w2 ∧ w2 ≤ 1 ∧ 0 ≤ w3 ∧ w3 ≤ 1 then
    let normal0 := interpolated_normal v1 v2 v3 w1 w2 w3
    let normal := if 0 < magnitude_squared normal0 then normalizeWith sqrtFn normal0 else normal0
    let position := interpolated_position v1 v2 v3 w1 w2 w3
    let world_position := interpolated_world_position v1 v2 v3 w1 w2 w3
    let tex_coords := interpolated_tex_coords v1 v2 v3 w1 w2 w3
    let color := fshader v1 v2 v3 position world_position normal tex_coords
    let depth := interpolated_depth a b c w1 w2 w3
    some (Fragment.new (x : ℚ) (y : ℚ) color depth)
  else
    none

/-- The inclusive integer range `lo..=hi` of a Rust `for` loop, as a list. -/
def intRange (lo hi : ℤ) : List ℤ :=
  List.map (fun (k : ℕ) => lo + (k : ℤ)) (List.range (hi + 1 - lo).toNat)

/-- `triangle.rs::triangle_with_shader`. The pixel loop (outer `y`, inner
`x`, a fragment pushed whenever the coverage test passes) is expressed as
`flatMap`/`filterMap` over the same inclusive ranges, in the same order. -/
def triangle_with_shader (sqrtFn : ℚ → ℚ) (fshader : FragmentShader)
    (v1 v2 v3 : Vertex) : List Fragment :=
  let a := v1.transformed_position
  let b := v2.transformed_position
  let c := v3.transformed_position
  let bb := calculate_bounding_box a b c
  let clamped_min_x := max bb.1 (-100)
  let clamped_min_y := max bb.2.1 (-100)
  let clamped_max_x := min bb.2.2.1 2000
  let clamped_max_y := min bb.2.2.2 2000
  if clamped_min_x > clamped_max_x ∨ clamped_min_y > clamped_max_y then []
  else
    let area := edge_function a b c
    if |area| < 1/10000 then []
    else
      (intRange clamped_min_y clamped_max_y).flatMap (fun y =>
        (intRange clamped_min_x clamped_max_x).filterMap (fun x =>
          pixel_fragment sqrtFn fshader v1 v2 v3 a b c area x y))

/-! ## Helper lemmas about the triangle rasterizer -/

lemma mem_intRange {lo hi x : ℤ} : x ∈ intRange lo hi ↔ lo ≤ x ∧ x ≤ hi := by
  unfold intRange
  rw [List.mem_map]
  constructor
  · rintro ⟨k, hk, rfl⟩
    rw [List.mem_range] at hk
    omega
  · rintro ⟨h1, h2⟩
    refine ⟨(x - lo).toNat, ?_, ?_⟩
    · rw [List.mem_range]
      omega
    · omega

lemma length_intRange (lo hi : ℤ) : (intRange lo hi).length = (hi + 1 - lo).toNat := by
  rw [intRange, List.length_map, List.length_range]

/-- A fragment produced by the pixel-loop body sits at the loop's own integer
pixel coordinates, and its depth is the barycentric depth interpolation at
that pixel's center. -/
lemma pixel_fragment_shape {sqrtFn : ℚ → ℚ} {fshader : FragmentShader}
    {v1 v2 v3 : Vertex} {a b c : V3 ℚ} {area : ℚ} {x y : ℤ} {f : Fragment}
    (h : pixel_fragment sqrtFn fshader v1 v2 v3 a b c area x y = some f) :
    f.x = (x : ℚ) ∧ f.y = (y : ℚ) ∧
    f.depth = interpolated_depth a b c
      (barycentric_coordinates ⟨(x : ℚ) + 1/2, (y : ℚ) + 1/2, 0⟩ a b c area).1
      (barycentric_coordinates ⟨(x : ℚ) + 1/2, (y : ℚ) + 1/2, 0⟩ a b c area).2.1
      (barycentric_coordinates ⟨(x : ℚ) + 1/2, (y : ℚ) + 1/2, 0⟩ a b c area).2.2 := by
  unfold pixel_fragment at h
  dsimp only at h
  split at h
  · cases h
    exact ⟨rfl, rfl, rfl⟩
  · cases h

/-- The three edge-function evaluations around a point sum to the triangle's
own edge function (signed area): the algebraic heart of barycentric
interpolation. -/
lemma barycentric_weights_sum {pt a b c : V3 ℚ} {area : ℚ}
    (ha : area = edge_function a b c) (h0 : area ≠ 0) :
    (barycentric_coordinates pt a b c area).1 +
    (barycentric_coordinates pt a b c area).2.1 +
    (barycentric_coordinates pt a b c area).2.2 = 1 := by
  subst ha
  unfold barycentric_coordinates edge_function at *
  field_simp
  ring

/-! ## C3 — degenerate triangles emit nothing -/

/-- C3: for every three post-transform vertices whose screen-space signed
area (the 2D edge function on screen x, y) has absolute value below the
`0.0001` epsilon threshold, `triangle_with_shader` emits zero fragments,
for every shader. -/
theorem degenerate_triangle_emits_no_fragments (sqrtFn : ℚ → ℚ) (fshader : FragmentShader)
    (v1 v2 v3 : Vertex)
    (h : |edge_function v1.transformed_position v2.transformed_position v3.transformed_position|
      < 1/10000) :
    triangle_with_shader sqrtFn fshader v1 v2 v3 = [] := by
  simp only [triangle_with_shader]
  split_ifs with h1 <;> rfl

/-- A trivial constant shader, used by the concrete witnesses. -/
def witnessShader : FragmentShader := fun _ _ _ _ _ _ _ => Color.new 100 100 100

/-- A concrete post-transform vertex, used by the concrete witnesses. -/
def witnessVertex : Vertex :=
  ⟨⟨0, 0, 0⟩, ⟨0, 0, 1⟩, ⟨0, 0⟩, Color.new 0 0 0, ⟨5, 5, 0⟩, ⟨0, 0, 1⟩, ⟨0, 0, 0⟩⟩

/-- Witness for C3: the concrete triangle with all three corners at the same
screen position has area `0` and emits no fragments. -/
theorem degenerate_triangle_emits_no_fragments_witness :
    |edge_function witnessVertex.transformed_position witnessVertex.transformed_position
      witnessVertex.transformed_position| < 1/10000 ∧
    triangle_with_shader (fun _ => 0) witnessShader witnessVertex witnessVertex witnessVertex = [] :=
  ⟨by norm_num [edge_function, witnessVertex],
   degenerate_triangle_emits_no_fragments (fun _ => 0) witnessShader _ _ _
     (by norm_num [edge_function, witnessVertex])⟩

/-! ## C10 — emitted fragments stay in the hard-coded clamp region -/

/-- C10: every fragment emitted by `triangle_with_shader` has integer pixel
coordinates with x and y in `[-100, 2000]` (the hard-coded clamp region), so
a single call emits at most `2101 * 2101` fragments, however large or
distant the triangle's screen coordinates are. -/
theorem triangle_fragments_bounded (sqrtFn : ℚ → ℚ) (fshader : FragmentShader)
    (v1 v2 v3 : Vertex) :
    (∀ f ∈ triangle_with_shader sqrtFn fshader v1 v2 v3,
      ∃ xi yi : ℤ, f.x = (xi : ℚ) ∧ f.y = (yi : ℚ) ∧
        -100 ≤ xi ∧ xi ≤ 2000 ∧ -100 ≤ yi ∧ yi ≤ 2000) ∧
    (triangle_with_shader sqrtFn fshader v1 v2 v3).length ≤ 2101 * 2101 := by
  simp only [triangle_with_shader]
  split_ifs with h1 h2
  · exact ⟨fun f hf => absurd hf (List.not_mem_nil f), by simp⟩
  · exact ⟨fun f hf => absurd hf (List.not_mem_nil f), by simp⟩
  · set a := v1.transformed_position
    set b := v2.transformed_position
    set c := v3.transformed_position
    set bb := calculate_bounding_box a b c with hbb
    set xlo := max bb.1 (-100) with hxlo
    set ylo := max bb.2.1 (-100) with hylo
    set xhi := min bb.2.2.1 2000 with hxhi
    set yhi := min bb.2.2.2 2000 with hyhi
    have hxlo100 : (-100 : ℤ) ≤ xlo := le_max_right _ _
    have hylo100 : (-100 : ℤ) ≤ ylo := le_max_right _ _
    have hxhi2000 : xhi ≤ 2000 := min_le_right _ _
    have hyhi2000 : yhi ≤ 2000 := min_le_right _ _
    constructor
    · intro f hf
      rw [List.mem_flatMap] at hf
      obtain ⟨y, hy, hf⟩ := hf
      rw [List.mem_filterMap] at hf
      obtain ⟨x, hx, hpf⟩ := hf
      have hxr := mem_intRange.mp hx
      have hyr := mem_intRange.mp hy
      obtain ⟨hfx, hfy, -⟩ := pixel_fragment_shape hpf
      exact ⟨x, y, hfx, hfy, by omega, by omega, by omega, by omega⟩
    · rw [List.length_flatMap]
      have hxlen : ∀ (y : ℤ),
          ((intRange xlo xhi).filterMap
            (fun x => pixel_fragment sqrtFn fshader v1 v2 v3 a b c
              (edge_function a b c) x y)).length ≤ 2101 := by
        intro y
        calc ((intRange xlo xhi).filterMap _).length
            ≤ (intRange xlo xhi).length := List.length_filterMap_le _ _
          _ = (xhi + 1 - xlo).toNat := length_intRange _ _
          _ ≤ 2101 := by omega
      calc (List.map _ (intRange ylo yhi)).sum
          ≤ (List.map _ (intRange ylo yhi)).length • 2101 :=
            List.sum_le_card_nsmul _ _ (by
              intro z hz
              rw [List.mem_map] at hz
              obtain ⟨y, -, rfl⟩ := hz
              exact hxlen y)
        _ = (intRange ylo yhi).length * 2101 := by rw [List.length_map, smul_eq_mul]
        _ = (yhi + 1 - ylo).toNat * 2101 := by rw [length_intRange]
        _ ≤ 2101 * 2101 := Nat.mul_le_mul_right _ (by omega)

/-! ## C4 — constant attributes interpolate exactly -/

lemma const_times_weights {q w1 w2 w3 : ℚ} (h : w1 + w2 + w3 = 1) :
    q * w1 + q * w2 + q * w3 = q := by
  have hq : q * w1 + q * w2 + q * w3 = q * (w1 + w2 + w3) := by ring
  rw [hq, h, mul_one]

/-- C4: over a non-degenerate triangle (`|area| ≥ 0.0001`), a per-vertex
attribute (normal, model position, world position, tex coords, depth) that
is identical across the three vertices interpolates, at every covered pixel
(all three barycentric weights in `[0,1]`), to exactly the shared value —
because the three weights sum to 1. The depth carried by every emitted
fragment equals the shared z in that case. -/
theorem const_attribute_interpolates_exactly
    (v1 v2 v3 : Vertex) (pt : V3 ℚ) (w1 w2 w3 : ℚ)
    (n p wp : V3 ℚ) (t : V2 ℚ) (d : ℚ)
    (harea : 1/10000 ≤
      |edge_function v1.transformed_position v2.transformed_position v3.transformed_position|)
    (hw : (w1, w2, w3) = barycentric_coordinates pt v1.transformed_position
      v2.transformed_position v3.transformed_position
      (edge_function v1.transformed_position v2.transformed_position v3.transformed_position))
    (hcov : 0 ≤ w1 ∧ w1 ≤ 1 ∧ 0 ≤ w2 ∧ w2 ≤ 1 ∧ 0 ≤ w3 ∧ w3 ≤ 1)
    (hn : v1.transformed_normal = n ∧ v2.transformed_normal = n ∧ v3.transformed_normal = n)
    (hp : v1.position = p ∧ v2.position = p ∧ v3.position = p)
    (hwp : v1.world_position = wp ∧ v2.world_position = wp ∧ v3.world_position = wp)
    (ht : v1.tex_coords = t ∧ v2.tex_coords = t ∧ v3.tex_coords = t)
    (hd : v1.transformed_position.z = d ∧ v2.transformed_position.z = d ∧
      v3.transformed_position.z = d) :
    w1 + w2 + w3 = 1 ∧
    interpolated_normal v1 v2 v3 w1 w2 w3 = n ∧
    interpolated_position v1 v2 v3 w1 w2 w3 = p ∧
    interpolated_world_position v1 v2 v3 w1 w2 w3 = wp ∧
    interpolated_tex_coords v1 v2 v3 w1 w2 w3 = t ∧
    interpolated_depth v1.transformed_position v2.transformed_position v3.transformed_position
      w1 w2 w3 = d ∧
    ∀ (sqrtFn : ℚ → ℚ) (fshader : FragmentShader),
      ∀ f ∈ triangle_with_shader sqrtFn fshader v1 v2 v3, f.depth = d := by
  have hane : edge_function v1.transformed_position v2.transformed_position
      v3.transformed_position ≠ 0 := by
    intro h0
    rw [h0] at harea
    norm_num at harea
  have hsum : w1 + w2 + w3 = 1 := by
    have e1 : w1 = (barycentric_coordinates pt v1.transformed_position v2.transformed_position
        v3.transformed_position (edge_function v1.transformed_position v2.transformed_position
        v3.transformed_position)).1 := by rw [← hw]
    have e2 : w2 = (barycentric_coordinates pt v1.transformed_position v2.transformed_position
        v3.transformed_position (edge_function v1.transformed_position v2.transformed_position
        v3.transformed_position)).2.1 := by rw [← hw]
    have e3 : w3 = (barycentric_coordinates pt v1.transformed_position v2.transformed_position
        v3.transformed_position (edge_function v1.transformed_position v2.transformed_position
        v3.transformed_position)).2.2 := by rw [← hw]
    rw [e1, e2, e3]
    exact barycentric_weights_sum rfl hane
  obtain ⟨hn1, hn2, hn3⟩ := hn
  obtain ⟨hp1, hp2, hp3⟩ := hp
  obtain ⟨hwp1, hwp2, hwp3⟩ := hwp
  obtain ⟨ht1, ht2, ht3⟩ := ht
  obtain ⟨hd1, hd2, hd3⟩ := hd
  refine ⟨hsum, ?_, ?_, ?_, ?_, ?_, ?_⟩
  · unfold interpolated_normal
    rw [hn1, hn2, hn3]
    ext <;> exact const_times_weights hsum
  · unfold interpolated_position
    rw [hp1, hp2, hp3]
    ext <;> exact const_times_weights hsum
  · unfold interpolated_world_position
    rw [hwp1, hwp2, hwp3]
    ext <;> exact const_times_weights hsum
  · unfold interpolated_tex_coords
    rw [ht1, ht2, ht3]
    ext <;> exact const_times_weights hsum
  · unfold interpolated_depth
    rw [hd1, hd2, hd3]
    exact const_times_weights hsum
  · intro sqrtFn fshader f hf
    simp only [triangle_with_shader] at hf
    split_ifs at hf with hb harea2
    · exact absurd hf (List.not_mem_nil f)
    · exact absurd hf (List.not_mem_nil f)
    · rw [List.mem_flatMap] at hf
      obtain ⟨y, -, hf⟩ := hf
      rw [List.mem_filterMap] at hf
      obtain ⟨x, -, hpf⟩ := hf
      obtain ⟨-, -, hdep⟩ := pixel_fragment_shape hpf
      rw [hdep]
      unfold interpolated_depth
      rw [hd1, hd2, hd3]
      exact const_times_weights (barycentric_weights_sum rfl hane)

/-- A concrete triangle corner for the C4 witness (shared attributes,
screen position `(0,0)`, depth 3). -/
def vtxA : Vertex :=
  ⟨⟨1, 2, 3⟩, ⟨0, 0, 1⟩, ⟨0, 1⟩, Color.new 0 0 0, ⟨0, 0, 3⟩, ⟨7, 8, 9⟩, ⟨4, 5, 6⟩⟩

/-- Second corner, screen position `(4,0)`. -/
def vtxB : Vertex :=
  ⟨⟨1, 2, 3⟩, ⟨0, 0, 1⟩, ⟨0, 1⟩, Color.new 0 0 0, ⟨4, 0, 3⟩, ⟨7, 8, 9⟩, ⟨4, 5, 6⟩⟩

/-- Third corner, screen position `(0,4)`. -/
def vtxC : Vertex :=
  ⟨⟨1, 2, 3⟩, ⟨0, 0, 1⟩, ⟨0, 1⟩, Color.new 0 0 0, ⟨0, 4, 3⟩, ⟨7, 8, 9⟩, ⟨4, 5, 6⟩⟩

/-- Witness for C4 at a concrete non-degenerate triangle, the pixel center
`(1.5, 1.5)` (weights `(1/4, 3/8, 3/8)`), and concrete shared attributes. -/
theorem const_attribute_interpolates_exactly_witness :
    (1/10000 ≤
      |edge_function vtxA.transformed_position vtxB.transformed_position
        vtxC.transformed_position|) ∧
    (((1/4 : ℚ), (3/8 : ℚ), (3/8 : ℚ)) = barycentric_coordinates ⟨3/2, 3/2, 0⟩
      vtxA.transformed_position vtxB.transformed_position vtxC.transformed_position
      (edge_function vtxA.transformed_position vtxB.transformed_position
        vtxC.transformed_position)) ∧
    ((1/4 : ℚ) + 3/8 + 3/8 = 1 ∧
     interpolated_normal vtxA vtxB vtxC (1/4) (3/8) (3/8) = ⟨7, 8, 9⟩ ∧
     interpolated_position vtxA vtxB vtxC (1/4) (3/8) (3/8) = ⟨1, 2, 3⟩ ∧
     interpolated_world_position vtxA vtxB vtxC (1/4) (3/8) (3/8) = ⟨4, 5, 6⟩ ∧
     interpolated_tex_coords vtxA vtxB vtxC (1/4) (3/8) (3/8) = ⟨0, 1⟩ ∧
     interpolated_depth vtxA.transformed_position vtxB.transformed_position
       vtxC.transformed_position (1/4) (3/8) (3/8) = 3 ∧
     ∀ (sqrtFn : ℚ → ℚ) (fshader : FragmentShader),
       ∀ f ∈ triangle_with_shader sqrtFn fshader vtxA vtxB vtxC, f.depth = 3) :=
  ⟨by norm_num [edge_function, vtxA, vtxB, vtxC],
   by norm_num [barycentric_coordinates, edge_function, vtxA, vtxB, vtxC],
   const_attribute_interpolates_exactly vtxA vtxB vtxC ⟨3/2, 3/2, 0⟩ (1/4) (3/8) (3/8)
     ⟨7, 8, 9⟩ ⟨1, 2, 3⟩ ⟨4, 5, 6⟩ ⟨0, 1⟩ 3
     (by norm_num [edge_function, vtxA, vtxB, vtxC])
     (by norm_num [barycentric_coordinates, edge_function, vtxA, vtxB, vtxC])
     (by norm_num)
     (by norm_num [vtxA, vtxB, vtxC])
     (by norm_num [vtxA, vtxB, vtxC])
     (by norm_num [vtxA, vtxB, vtxC])
     (by norm_num [vtxA, vtxB, vtxC])
     (by norm_num [vtxA, vtxB, vtxC])⟩

/-! ## Line rasterizer (`src/line.rs`) -/

/-- `f32 as i32`: truncation toward zero (exact here — every value cast in
`line.rs` has already been clamped to `[-10000, 20000]`, well inside `i32`
range). -/
def truncInt (q : ℚ) : ℤ := if 0 ≤ q then ⌊q⌋ else ⌈q⌉

/-- The quantities `line.rs::line` computes before entering its loop.
`dx`/`dy` use `saturating_sub`, which never saturates here (operands lie in
`[-10000, 20000]`), so it is plain subtraction; `dx / 2` and `-(dy / 2)`
follow Rust's truncating `i32` division (the operand of `/` is
nonnegative, so `Int` floor division agrees). -/
structure LineSetup where
  startX : ℚ
  startY : ℚ
  endX : ℚ
  endY : ℚ
  startZ : ℚ
  endZ : ℚ
  x0 : ℤ
  y0 : ℤ
  x1 : ℤ
  y1 : ℤ
  dx : ℤ
  dy : ℤ
  sx : ℤ
  sy : ℤ
  err0 : ℤ
deriving DecidableEq

/-- The pre-loop part of `line.rs::line`. -/
def lineSetup (a b : Vertex) : LineSetup :=
  let s := a.transformed_position
  let e := b.transformed_position
  let start_x := fclamp s.x (-10000) 20000
  let start_y := fclamp s.y (-10000) 20000
  let end_x := fclamp e.x (-10000) 20000
  let end_y := fclamp e.y (-10000) 20000
  let x0 := truncInt start_x
  let y0 := truncInt start_y
  let x1 := truncInt end_x
  let y1 := truncInt end_y
  let dx := |x1 - x0|
  let dy := |y1 - y0|
  let sx := if x0 < x1 then (1 : ℤ) else -1
  let sy := if y0 < y1 then (1 : ℤ) else -1
  let err := if dx > dy then dx / 2 else -(dy / 2)
  ⟨start_x, start_y, end_x, end_y, s.z, e.z, x0, y0, x1, y1, dx, dy, sx, sy, err⟩

/-- The fragment pushed by one loop iteration of `line.rs::line` at integer
position `(x0, y0)`: depth interpolated in screen x with the
degenerate-denominator guard, fixed white placeholder color. -/
def lineFragAt (s : LineSetup) (x0 y0 : ℤ) : Fragment :=
  let denom := if |s.endX - s.startX| > 1/10000 then s.endX - s.startX else 1
  let z := s.startZ + (s.endZ - s.startZ) * ((x0 : ℚ) - s.startX) / denom
  Fragment.new (x0 : ℚ) (y0 : ℚ) (Color.new 255 255 255) z

/-- The `loop { ... }` of `line.rs::line`, with an explicit fuel parameter
(the Rust loop is unbounded; termination is proved below, by showing the
loop completes within fuel `max dx dy + 1`). Returns `none` iff the fuel
runs out before the `x0 == x1 && y0 == y1` break. -/
def lineLoop (s : LineSetup) : ℕ → ℤ → ℤ → ℤ → Option (List Fragment)
  | 0, _, _, _ => none
  | fuel + 1, x0, y0, err =>
    let frag := lineFragAt s x0 y0
    if x0 = s.x1 ∧ y0 = s.y1 then some [frag]
    else
      let e2 := err
      let x0n := if e2 > -s.dx then x0 + s.sx else x0
      let err1 := if e2 > -s.dx then err - s.dy else err
      let y0n := if e2 < s.dy then y0 + s.sy else y0
      let err2 := if e2 < s.dy then err1 + s.dx else err1
      Option.map (fun l => frag :: l) (lineLoop s fuel x0n y0n err2)

/-- `line.rs::line`. The fuel `max dx dy + 1` is exactly the number of
iterations the loop performs (proved below); the `[]` default is dead. -/
def line (a b : Vertex) : List Fragment :=
  let s := lineSetup a b
  Option.getD (lineLoop s ((max s.dx s.dy).toNat + 1) s.x0 s.y0 s.err0) []

/-! ## C9 — the line loop terminates and emits one fragment per step -/

lemma getLast?_cons_of_ne_nil {α : Type} {l : List α} (f : α) (h : l ≠ []) :
    (f :: l).getLast? = l.getLast? := by
  cases l with
  | nil => exact absurd rfl h
  | cons x xs => rw [List.getLast?_cons_cons]

/-- One unfolding step of `lineLoop` with nonzero fuel. -/
lemma lineLoop_succ (s : LineSetup) (fuel : ℕ) (x0 y0 err : ℤ) :
    lineLoop s (fuel + 1) x0 y0 err =
      if x0 = s.x1 ∧ y0 = s.y1 then some [lineFragAt s x0 y0]
      else
        Option.map (fun l => lineFragAt s x0 y0 :: l)
          (lineLoop s fuel (if err > -s.dx then x0 + s.sx else x0)
            (if err < s.dy then y0 + s.sy else y0)
            (if err < s.dy then (if err > -s.dx then err - s.dy else err) + s.dx
             else (if err > -s.dx then err - s.dy else err))) := rfl

/-- x-major case (`dx > dy`): with the loop invariant
`err = dx/2 - xsteps*dy + ysteps*dx ∈ [0, dx-1]` (where `xsteps = dx - a`,
`ysteps = dy - b` count steps already taken), the loop takes exactly one
x-step per iteration and completes in `a + 1` iterations. -/
lemma lineLoop_xmajor (s : LineSetup) (hE : 0 ≤ s.dy) (hD : s.dy < s.dx)
    (hsx : s.sx = 1 ∨ s.sx = -1) (hsy : s.sy = 1 ∨ s.sy = -1) :
    ∀ (a b : ℕ) (err x0 y0 : ℤ),
      x0 = s.x1 - s.sx * a →
      y0 = s.y1 - s.sy * b →
      err = s.dx / 2 - (s.dx - a) * s.dy + (s.dy - b) * s.dx →
      0 ≤ err → err ≤ s.dx - 1 →
      ∃ l, lineLoop s (a + 1) x0 y0 err = some l ∧
        l.length = a + 1 ∧
        l.head? = some (lineFragAt s x0 y0) ∧
        l.getLast? = some (lineFragAt s s.x1 s.y1) ∧
        ∀ f ∈ l, f.color = Color.new 255 255 255 := by
  intro a
  induction a with
  | zero =>
    intro b err x0 y0 hx hy herr h0 h1
    have herr0 : err = s.dx / 2 - (b : ℤ) * s.dx := by
      rw [herr]
      push_cast
      ring
    have hb : b = 0 := by
      by_contra hb
      have hb1 : (1 : ℤ) ≤ (b : ℤ) := by exact_mod_cast Nat.one_le_iff_ne_zero.mpr hb
      have hmul : s.dx ≤ (b : ℤ) * s.dx := le_mul_of_one_le_left (by omega) hb1
      omega
    subst hb
    have hx1 : x0 = s.x1 := by rw [hx]; push_cast; ring
    have hy1 : y0 = s.y1 := by rw [hy]; push_cast; ring
    refine ⟨[lineFragAt s x0 y0], ?_, by simp, by simp, ?_, ?_⟩
    · rw [lineLoop_succ, if_pos ⟨hx1, hy1⟩]
    · rw [hx1, hy1]
      simp
    · intro f hf
      rw [List.mem_singleton] at hf
      rw [hf]
      rfl
  | succ a ih =>
    intro b err x0 y0 hx hy herr h0 h1
    have hD1 : 1 ≤ s.dx := by omega
    have hxne : x0 ≠ s.x1 := by
      rw [hx]
      intro hEq
      rcases hsx with h | h <;> (rw [h] at hEq; push_cast at hEq; omega)
    have hcond : ¬(x0 = s.x1 ∧ y0 = s.y1) := fun h => hxne h.1
    have hxstep : err > -s.dx := by omega
    rw [lineLoop_succ, if_neg hcond, if_pos hxstep, if_pos hxstep]
    have hxrel : x0 + s.sx = s.x1 - s.sx * (a : ℤ) := by
      rw [hx]
      push_cast
      ring
    by_cases hy2 : err < s.dy
    · -- both x and y step this iteration
      have hb1 : 1 ≤ b := by
        by_contra hb
        have hb0 : b = 0 := by omega
        subst hb0
        have herr0 : err = s.dx / 2 + ((a : ℤ) + 1) * s.dy := by
          rw [herr]
          push_cast
          ring
        rcases eq_or_lt_of_le hE with hE0 | hE1
        · omega
        · have hmul : s.dy ≤ ((a : ℤ) + 1) * s.dy :=
            le_mul_of_one_le_left (by omega) (by push_cast; omega)
          omega
      have hcast : ((b - 1 : ℕ) : ℤ) = (b : ℤ) - 1 := by
        push_cast [Nat.cast_sub hb1]
        ring
      have hyrel : y0 + s.sy = s.y1 - s.sy * ((b - 1 : ℕ) : ℤ) := by
        rw [hy, hcast]
        ring
      have herrrel : err - s.dy + s.dx =
          s.dx / 2 - (s.dx - (a : ℤ)) * s.dy + (s.dy - ((b - 1 : ℕ) : ℤ)) * s.dx := by
        rw [herr, hcast]
        push_cast
        ring
      obtain ⟨l, hl, hlen, hhead, hlast, hcol⟩ :=
        ih (b - 1) (err - s.dy + s.dx) (x0 + s.sx) (y0 + s.sy) hxrel hyrel herrrel
          (by omega) (by omega)
      rw [if_pos hy2, if_pos hy2, hl]
      refine ⟨lineFragAt s x0 y0 :: l, rfl, by simp [hlen], by simp, ?_, ?_⟩
      · rw [getLast?_cons_of_ne_nil _ (by intro hnil; rw [hnil] at hlen; simp at hlen)]
        exact hlast
      · intro f hf
        rcases List.mem_cons.mp hf with hf | hf
        · rw [hf]; rfl
        · exact hcol f hf
    · -- only x steps this iteration
      have herrrel : err - s.dy =
          s.dx / 2 - (s.dx - (a : ℤ)) * s.dy + (s.dy - (b : ℤ)) * s.dx := by
        rw [herr]
        push_cast
        ring
      obtain ⟨l, hl, hlen, hhead, hlast, hcol⟩ :=
        ih b (err - s.dy) (x0 + s.sx) y0 hxrel hy herrrel (by omega) (by omega)
      rw [if_neg hy2, if_neg hy2, hl]
      refine ⟨lineFragAt s x0 y0 :: l, rfl, by simp [hlen], by simp, ?_, ?_⟩
      · rw [getLast?_cons_of_ne_nil _ (by intro hnil; rw [hnil] at hlen; simp at hlen)]
        exact hlast
      · intro f hf
        rcases List.mem_cons.mp hf with hf | hf
        · rw [hf]; rfl
        · exact hcol f hf

/-- y-major case (`dx ≤ dy`, `dy ≥ 1`): with the loop invariant
`err = -(dy/2) - xsteps*dy + ysteps*dx ∈ [-(dy-1), 0]`, the loop takes
exactly one y-step per iteration and completes in `b + 1` iterations. -/
lemma lineLoop_ymajor (s : LineSetup) (hD : 0 ≤ s.dx) (hDE : s.dx ≤ s.dy) (hE1 : 1 ≤ s.dy)
    (hsx : s.sx = 1 ∨ s.sx = -1) (hsy : s.sy = 1 ∨ s.sy = -1) :
    ∀ (b a : ℕ) (err x0 y0 : ℤ),
      x0 = s.x1 - s.sx * a →
      y0 = s.y1 - s.sy * b →
      err = -(s.dy / 2) - (s.dx - a) * s.dy + (s.dy - b) * s.dx →
      -(s.dy - 1) ≤ err → err ≤ 0 →
      ∃ l, lineLoop s (b + 1) x0 y0 err = some l ∧
        l.length = b + 1 ∧
        l.head? = some (lineFragAt s x0 y0) ∧
        l.getLast? = some (lineFragAt s s.x1 s.y1) ∧
        ∀ f ∈ l, f.color = Color.new 255 255 255 := by
  intro b
  induction b with
  | zero =>
    intro a err x0 y0 hx hy herr h0 h1
    have herr0 : err = -(s.dy / 2) + (a : ℤ) * s.dy := by
      rw [herr]
      push_cast
      ring
    have ha : a = 0 := by
      by_contra ha
      have ha1 : (1 : ℤ) ≤ (a : ℤ) := by exact_mod_cast Nat.one_le_iff_ne_zero.mpr ha
      have hmul : s.dy ≤ (a : ℤ) * s.dy := le_mul_of_one_le_left (by omega) ha1
      omega
    subst ha
    have hx1 : x0 = s.x1 := by rw [hx]; push_cast; ring
    have hy1 : y0 = s.y1 := by rw [hy]; push_cast; ring
    refine ⟨[lineFragAt s x0 y0], ?_, by simp, by simp, ?_, ?_⟩
    · rw [lineLoop_succ, if_pos ⟨hx1, hy1⟩]
    · rw [hx1, hy1]
      simp
    · intro f hf
      rw [List.mem_singleton] at hf
      rw [hf]
      rfl
  | succ b ih =>
    intro a err x0 y0 hx hy herr h0 h1
    have hyne : y0 ≠ s.y1 := by
      rw [hy]
      intro hEq
      rcases hsy with h | h <;> (rw [h] at hEq; push_cast at hEq; omega)
    have hcond : ¬(x0 = s.x1 ∧ y0 = s.y1) := fun h => hyne h.2
    have hystep : err < s.dy := by omega
    rw [lineLoop_succ, if_neg hcond, if_pos hystep, if_pos hystep]
    have hyrel : y0 + s.sy = s.y1 - s.sy * (b : ℤ) := by
      rw [hy]
      push_cast
      ring
    by_cases hx2 : err > -s.dx
    · -- both x and y step this iteration
      have ha1 : 1 ≤ a := by
        by_contra ha
        have ha0 : a = 0 := by omega
        subst ha0
        have herr0 : err = -(s.dy / 2) - ((b : ℤ) + 1) * s.dx := by
          rw [herr]
          push_cast
          ring
        have hmul : s.dx ≤ ((b : ℤ) + 1) * s.dx :=
          le_mul_of_one_le_left (by omega) (by push_cast; omega)
        omega
      have hcast : ((a - 1 : ℕ) : ℤ) = (a : ℤ) - 1 := by
        push_cast [Nat.cast_sub ha1]
        ring
      have hxrel : x0 + s.sx = s.x1 - s.sx * ((a - 1 : ℕ) : ℤ) := by
        rw [hx, hcast]
        ring
      have herrrel : err - s.dy + s.dx =
          -(s.dy / 2) - (s.dx - ((a - 1 : ℕ) : ℤ)) * s.dy + (s.dy - (b : ℤ)) * s.dx := by
        rw [herr, hcast]
        push_cast
        ring
      obtain ⟨l, hl, hlen, hhead, hlast, hcol⟩ :=
        ih (a - 1) (err - s.dy + s.dx) (x0 + s.sx) (y0 + s.sy) hxrel hyrel herrrel
          (by omega) (by omega)
      rw [if_pos hx2, if_pos hx2, hl]
      refine ⟨lineFragAt s x0 y0 :: l, rfl, by simp [hlen], by simp, ?_, ?_⟩
      · rw [getLast?_cons_of_ne_nil _ (by intro hnil; rw [hnil] at hlen; simp at hlen)]
        exact hlast
      · intro f hf
        rcases List.mem_cons.mp hf with hf | hf
        · rw [hf]; rfl
        · exact hcol f hf
    · -- only y steps this iteration
      have herrrel : err + s.dx =
          -(s.dy / 2) - (s.dx - (a : ℤ)) * s.dy + (s.dy - (b : ℤ)) * s.dx := by
        rw [herr]
        push_cast
        ring
      obtain ⟨l, hl, hlen, hhead, hlast, hcol⟩ :=
        ih a (err + s.dx) x0 (y0 + s.sy) hx hyrel herrrel (by omega) (by omega)
      rw [if_neg hx2, if_neg hx2, hl]
      refine ⟨lineFragAt s x0 y0 :: l, rfl, by simp [hlen], by simp, ?_, ?_⟩
      · rw [getLast?_cons_of_ne_nil _ (by intro hnil; rw [hnil] at hlen; simp at hlen)]
        exact hlast
      · intro f hf
        rcases List.mem_cons.mp hf with hf | hf
        · rw [hf]; rfl
        · exact hcol f hf

lemma lineSetup_dx (a b : Vertex) :
    (lineSetup a b).dx = |(lineSetup a b).x1 - (lineSetup a b).x0| := rfl

lemma lineSetup_dy (a b : Vertex) :
    (lineSetup a b).dy = |(lineSetup a b).y1 - (lineSetup a b).y0| := rfl

lemma lineSetup_sx (a b : Vertex) :
    (lineSetup a b).sx = if (lineSetup a b).x0 < (lineSetup a b).x1 then (1 : ℤ) else -1 := rfl

lemma lineSetup_sy (a b : Vertex) :
    (lineSetup a b).sy = if (lineSetup a b).y0 < (lineSetup a b).y1 then (1 : ℤ) else -1 := rfl

lemma lineSetup_err0 (a b : Vertex) :
    (lineSetup a b).err0 = if (lineSetup a b).dx > (lineSetup a b).dy
      then (lineSetup a b).dx / 2 else -((lineSetup a b).dy / 2) := rfl

lemma sub_sign_mul_abs (x0 x1 : ℤ) :
    x0 = x1 - (if x0 < x1 then (1 : ℤ) else -1) * |x1 - x0| := by
  rcases abs_cases (x1 - x0) with ⟨h1, h2⟩ | ⟨h1, h2⟩ <;> rw [h1] <;> split_ifs <;> omega

/-- C9: for every pair of post-transform vertices, the error-accumulator
loop of `line.rs::line` terminates — it completes within fuel
`max dx dy + 1` — and the emitted list has exactly one fragment per integer
step (`max dx dy + 1` of them), starting at the first endpoint's integer
position and ending at the second's, every fragment carrying the fixed
placeholder color `(255, 255, 255)`. -/
theorem line_terminates_one_fragment_per_step (a b : Vertex) :
    ∃ l, lineLoop (lineSetup a b) ((max (lineSetup a b).dx (lineSetup a b).dy).toNat + 1)
        (lineSetup a b).x0 (lineSetup a b).y0 (lineSetup a b).err0 = some l ∧
      line a b = l ∧
      l.length = (max (lineSetup a b).dx (lineSetup a b).dy).toNat + 1 ∧
      l.head? = some (lineFragAt (lineSetup a b) (lineSetup a b).x0 (lineSetup a b).y0) ∧
      l.getLast? = some (lineFragAt (lineSetup a b) (lineSetup a b).x1 (lineSetup a b).y1) ∧
      ∀ f ∈ l, f.color = Color.new 255 255 255 := by
  set s := lineSetup a b with hs
  have hdx0 : 0 ≤ s.dx := by rw [hs, lineSetup_dx]; exact abs_nonneg _
  have hdy0 : 0 ≤ s.dy := by rw [hs, lineSetup_dy]; exact abs_nonneg _
  have hsx : s.sx = 1 ∨ s.sx = -1 := by
    rw [hs, lineSetup_sx]; split_ifs <;> simp
  have hsy : s.sy = 1 ∨ s.sy = -1 := by
    rw [hs, lineSetup_sy]; split_ifs <;> simp
  have hxrel : s.x0 = s.x1 - s.sx * s.dx := by
    rw [hs, lineSetup_sx, lineSetup_dx]
    exact sub_sign_mul_abs _ _
  have hyrel : s.y0 = s.y1 - s.sy * s.dy := by
    rw [hs, lineSetup_sy, lineSetup_dy]
    exact sub_sign_mul_abs _ _
  have herr0 : s.err0 = if s.dx > s.dy then s.dx / 2 else -(s.dy / 2) := by
    rw [hs, lineSetup_err0]
  have hcastx : ((s.dx.toNat : ℤ)) = s.dx := Int.toNat_of_nonneg hdx0
  have hcasty : ((s.dy.toNat : ℤ)) = s.dy := Int.toNat_of_nonneg hdy0
  have hline : line a b =
      Option.getD (lineLoop s ((max s.dx s.dy).toNat + 1) s.x0 s.y0 s.err0) [] := rfl
  by_cases hc : s.dy < s.dx
  · -- x-major
    have hfuel : (max s.dx s.dy).toNat = s.dx.toNat := by
      rw [max_eq_left (le_of_lt hc)]
    obtain ⟨l, hl, hlen, hhead, hlast, hcol⟩ :=
      lineLoop_xmajor s hdy0 hc hsx hsy s.dx.toNat s.dy.toNat s.err0 s.x0 s.y0
        (by rw [hcastx]; exact hxrel)
        (by rw [hcasty]; exact hyrel)
        (by rw [herr0, if_pos hc, hcastx, hcasty]; ring)
        (by rw [herr0, if_pos hc]; omega)
        (by rw [herr0, if_pos hc]; omega)
    refine ⟨l, by rw [hfuel]; exact hl, ?_, by rw [hfuel]; exact hlen, hhead, hlast, hcol⟩
    rw [hline, hfuel, hl]
    rfl
  · -- y-major (or degenerate point)
    have hc' : s.dx ≤ s.dy := le_of_not_lt hc
    have hfuel : (max s.dx s.dy).toNat = s.dy.toNat := by
      rw [max_eq_right hc']
    rcases eq_or_lt_of_le hdy0 with hE0 | hE1
    · -- dy = 0, hence dx = 0: single iteration, immediate break
      have hdx00 : s.dx = 0 := by omega
      have hdy00 : s.dy = 0 := by omega
      have hx1 : s.x0 = s.x1 := by rw [hxrel, hdx00]; ring
      have hy1 : s.y0 = s.y1 := by rw [hyrel, hdy00]; ring
      have hloop : lineLoop s ((max s.dx s.dy).toNat + 1) s.x0 s.y0 s.err0 =
          some [lineFragAt s s.x0 s.y0] := by
        rw [hfuel, hdy00]
        rw [show ((0 : ℤ).toNat + 1) = 0 + 1 by rfl]
        rw [lineLoop_succ, if_pos ⟨hx1, hy1⟩]
      refine ⟨[lineFragAt s s.x0 s.y0], hloop, ?_, ?_, by simp, ?_, ?_⟩
      · rw [hline, hloop]
        rfl
      · rw [hfuel, hdy00]
        rfl
      · rw [hx1, hy1]
        simp
      · intro f hf
        rw [List.mem_singleton] at hf
        rw [hf]
        rfl
    · -- dy ≥ 1
      obtain ⟨l, hl, hlen, hhead, hlast, hcol⟩ :=
        lineLoop_ymajor s hdx0 hc' (by omega) hsx hsy s.dy.toNat s.dx.toNat s.err0 s.x0 s.y0
          (by rw [hcastx]; exact hxrel)
          (by rw [hcasty]; exact hyrel)
          (by rw [herr0, if_neg (by omega), hcastx, hcasty]; ring)
          (by rw [herr0, if_neg (by omega)]; omega)
          (by rw [herr0, if_neg (by omega)]; omega)
      refine ⟨l, by rw [hfuel]; exact hl, ?_, by rw [hfuel]; exact hlen, hhead, hlast, hcol⟩
      rw [hline, hfuel, hl]
      rfl

/-! ## Vertex shader (`src/shaders.rs`) -/

/-- A 4-component vector (`nalgebra_glm::Vec4`), components modelled as `ℚ`. -/
@[ext]
structure V4 where
  x : ℚ
  y : ℚ
  z : ℚ
  w : ℚ
deriving DecidableEq

/-- A 4×4 matrix (`nalgebra_glm::Mat4`), entry `mIJ` = row `I`, column `J`. -/
@[ext]
structure M4 where
  m00 : ℚ
  m01 : ℚ
  m02 : ℚ
  m03 : ℚ
  m10 : ℚ
  m11 : ℚ
  m12 : ℚ
  m13 : ℚ
  m20 : ℚ
  m21 : ℚ
  m22 : ℚ
  m23 : ℚ
  m30 : ℚ
  m31 : ℚ
  m32 : ℚ
  m33 : ℚ
deriving DecidableEq

/-- Matrix–vector product `Mat4 * Vec4`. -/
def M4.mulVec (m : M4) (v : V4) : V4 :=
  ⟨m.m00 * v.x + m.m01 * v.y + m.m02 * v.z + m.m03 * v.w,
   m.m10 * v.x + m.m11 * v.y + m.m12 * v.z + m.m13 * v.w,
   m.m20 * v.x + m.m21 * v.y + m.m22 * v.z + m.m23 * v.w,
   m.m30 * v.x + m.m31 * v.y + m.m32 * v.z + m.m33 * v.w⟩

/-- Matrix product `Mat4 * Mat4`. -/
def M4.mul (a b : M4) : M4 :=
  ⟨a.m00 * b.m00 + a.m01 * b.m10 + a.m02 * b.m20 + a.m03 * b.m30,
   a.m00 * b.m01 + a.m01 * b.m11 + a.m02 * b.m21 + a.m03 * b.m31,
   a.m00 * b.m02 + a.m01 * b.m12 + a.m02 * b.m22 + a.m03 * b.m32,
   a.m00 * b.m03 + a.m01 * b.m13 + a.m02 * b.m23 + a.m03 * b.m33,
   a.m10 * b.m00 + a.m11 * b.m10 + a.m12 * b.m20 + a.m13 * b.m30,
   a.m10 * b.m01 + a.m11 * b.m11 + a.m12 * b.m21 + a.m13 * b.m31,
   a.m10 * b.m02 + a.m11 * b.m12 + a.m12 * b.m22 + a.m13 * b.m32,
   a.m10 * b.m03 + a.m11 * b.m13 + a.m12 * b.m23 + a.m13 * b.m33,
   a.m20 * b.m00 + a.m21 * b.m10 + a.m22 * b.m20 + a.m23 * b.m30,
   a.m20 * b.m01 + a.m21 * b.m11 + a.m22 * b.m21 + a.m23 * b.m31,
   a.m20 * b.m02 + a.m21 * b.m12 + a.m22 * b.m22 + a.m23 * b.m32,
   a.m20 * b.m03 + a.m21 * b.m13 + a.m22 * b.m23 + a.m23 * b.m33,
   a.m30 * b.m00 + a.m31 * b.m10 + a.m32 * b.m20 + a.m33 * b.m30,
   a.m30 * b.m01 + a.m31 * b.m11 + a.m32 * b.m21 + a.m33 * b.m31,
   a.m30 * b.m02 + a.m31 * b.m12 + a.m32 * b.m22 + a.m33 * b.m32,
   a.m30 * b.m03 + a.m31 * b.m13 + a.m32 * b.m23 + a.m33 * b.m33⟩

/-- A 3×3 matrix (`nalgebra_glm::Mat3`), entry `mIJ` = row `I`, column `J`. -/
@[ext]
structure M3 where
  m00 : ℚ
  m01 : ℚ
  m02 : ℚ
  m10 : ℚ
  m11 : ℚ
  m12 : ℚ
  m20 : ℚ
  m21 : ℚ
  m22 : ℚ
deriving DecidableEq

/-- `Mat3::identity()`. -/
def M3.identity : M3 := ⟨1, 0, 0, 0, 1, 0, 0, 0, 1⟩

/-- `Mat3::transpose()`. -/
def M3.transpose (m : M3) : M3 :=
  ⟨m.m00, m.m10, m.m20, m.m01, m.m11, m.m21, m.m02, m.m12, m.m22⟩

/-- 3×3 determinant. -/
def M3.det (m : M3) : ℚ :=
  m.m00 * (m.m11 * m.m22 - m.m12 * m.m21) -
  m.m01 * (m.m10 * m.m22 - m.m12 * m.m20) +
  m.m02 * (m.m10 * m.m21 - m.m11 * m.m20)

/-- `try_inverse().unwrap_or(Mat3::identity())`: the adjugate divided by the
determinant when the determinant is nonzero, the identity fallback
otherwise. -/
def M3.tryInverseOrIdentity (m : M3) : M3 :=
  let d := m.det
  if d = 0 then M3.identity else
    ⟨(m.m11 * m.m22 - m.m12 * m.m21) / d,
     (m.m02 * m.m21 - m.m01 * m.m22) / d,
     (m.m01 * m.m12 - m.m02 * m.m11) / d,
     (m.m12 * m.m20 - m.m10 * m.m22) / d,
     (m.m00 * m.m22 - m.m02 * m.m20) / d,
     (m.m02 * m.m10 - m.m00 * m.m12) / d,
     (m.m10 * m.m21 - m.m11 * m.m20) / d,
     (m.m01 * m.m20 - m.m00 * m.m21) / d,
     (m.m00 * m.m11 - m.m01 * m.m10) / d⟩

/-- Matrix–vector product `Mat3 * Vec3`. -/
def M3.mulV3 (m : M3) (v : V3 ℚ) : V3 ℚ :=
  ⟨m.m00 * v.x + m.m01 * v.y + m.m02 * v.z,
   m.m10 * v.x + m.m11 * v.y + m.m12 * v.z,
   m.m20 * v.x + m.m21 * v.y + m.m22 * v.z⟩

/-- `main.rs::Uniforms`. -/
structure Uniforms where
  model_matrix : M4
  view_matrix : M4
  projection_matrix : M4
  screen_width : ℚ
  screen_height : ℚ

/-- `shaders.rs::vertex_shader`. `nalgebra` linear indexing `m[k]` is
column-major, so `Mat3::new(m[0], m[1], m[2], m[4], m[5], m[6], m[8], m[9],
m[10])` (row-major constructor arguments) builds the transpose of the
upper-left 3×3 block of the model matrix. `f32::sqrt`, needed only for the
final renormalization of the transformed normal, is supplied as `sqrtFn`. -/
def vertex_shader (sqrtFn : ℚ → ℚ) (vertex : Vertex) (uniforms : Uniforms) : Vertex :=
  let position : V4 := ⟨vertex.position.x, vertex.position.y, vertex.position.z, 1⟩
  let world_position4 := uniforms.model_matrix.mulVec position
  let world_position : V3 ℚ := ⟨world_position4.x, world_position4.y, world_position4.z⟩
  let mvp := (uniforms.projection_matrix.mul uniforms.view_matrix).mul uniforms.model_matrix
  let transformed := mvp.mulVec position
  let w := if |transformed.w| > 1/10000 then transformed.w else 1
  let ndc : V3 ℚ :=
    ⟨fclamp (transformed.x / w) (-10) 10,
     fclamp (transformed.y / w) (-10) 10,
     fclamp (transformed.z / w) (-10) 10⟩
  let ndc_x := fclamp ndc.x (-1) 1
  let ndc_y := fclamp ndc.y (-1) 1
  let transformed_position : V3 ℚ :=
    ⟨(ndc_x + 1) * (1/2) * uniforms.screen_width,
     (1 - ndc_y) * (1/2) * uniforms.screen_height,
     ndc.z⟩
  let m := uniforms.model_matrix
  let model_mat3 : M3 := ⟨m.m00, m.m10, m.m20, m.m01, m.m11, m.m21, m.m02, m.m12, m.m22⟩
  let normal_matrix := model_mat3.transpose.tryInverseOrIdentity
  let tn := normal_matrix.mulV3 vertex.normal
  let transformed_normal :=
    if 0 < magnitude_squared tn then normalizeWith sqrtFn tn else tn
  { position := vertex.position
    normal := vertex.normal
    tex_coords := vertex.tex_coords
    color := vertex.color
    transformed_position := transformed_position
    transformed_normal := transformed_normal
    world_position := world_position }

/-! ## C2 — the vertex shader's screen position -/

/-- `Mat4::identity()`. -/
def M4.identity : M4 := ⟨1, 0, 0, 0, 0, 1, 0, 0, 0, 0, 1, 0, 0, 0, 0, 1⟩

/-- Written from the words of claim C2 (not from the source): the screen
position where the clip position is divided by `w` whenever `|w| ≥ 1e-4`
(and by 1 when `|w| < 1e-4`), NDC clamped to `[-10,10]`, x/y clamped again
to `[-1,1]`, then mapped to screen with Y inverted. -/
def claimed_screen_position (vertex : Vertex) (uniforms : Uniforms) : V3 ℚ :=
  let position : V4 := ⟨vertex.position.x, vertex.position.y, vertex.position.z, 1⟩
  let mvp := (uniforms.projection_matrix.mul uniforms.view_matrix).mul uniforms.model_matrix
  let transformed := mvp.mulVec position
  let w := if 1/10000 ≤ |transformed.w| then transformed.w else 1
  let ndc : V3 ℚ :=
    ⟨fclamp (transformed.x / w) (-10) 10,
     fclamp (transformed.y / w) (-10) 10,
     fclamp (transformed.z / w) (-10) 10⟩
  let ndc_x := fclamp ndc.x (-1) 1
  let ndc_y := fclamp ndc.y (-1) 1
  ⟨(ndc_x + 1) * (1/2) * uniforms.screen_width,
   (1 - ndc_y) * (1/2) * uniforms.screen_height,
   ndc.z⟩

/-- The amended claim's formula: identical to `claimed_screen_position`
except that the perspective divide applies only when `|w| > 1e-4` strictly,
as the source does. -/
def code_screen_position (vertex : Vertex) (uniforms : Uniforms) : V3 ℚ :=
  let position : V4 := ⟨vertex.position.x, vertex.position.y, vertex.position.z, 1⟩
  let mvp := (uniforms.projection_matrix.mul uniforms.view_matrix).mul uniforms.model_matrix
  let transformed := mvp.mulVec position
  let w := if |transformed.w| > 1/10000 then transformed.w else 1
  let ndc : V3 ℚ :=
    ⟨fclamp (transformed.x / w) (-10) 10,
     fclamp (transformed.y / w) (-10) 10,
     fclamp (transformed.z / w) (-10) 10⟩
  let ndc_x := fclamp ndc.x (-1) 1
  let ndc_y := fclamp ndc.y (-1) 1
  ⟨(ndc_x + 1) * (1/2) * uniforms.screen_width,
   (1 - ndc_y) * (1/2) * uniforms.screen_height,
   ndc.z⟩

/-- Concrete uniforms for the C2 counterexample: identity view/projection,
model matrix `diag(1, 1, 1, 1/10000)`, a 2×2 screen. -/
def cexUniforms : Uniforms :=
  ⟨⟨1, 0, 0, 0, 0, 1, 0, 0, 0, 0, 1, 0, 0, 0, 0, 1/10000⟩, M4.identity, M4.identity, 2, 2⟩

/-- Concrete vertex for the C2 counterexample. -/
def cexVertex : Vertex :=
  ⟨⟨1/20000, 0, 0⟩, ⟨0, 0, 1⟩, ⟨0, 0⟩, Color.new 0 0 0, ⟨0, 0, 0⟩, ⟨0, 0, 1⟩, ⟨0, 0, 0⟩⟩

/-- Counterexample to C2 as stated: at clip `w` exactly `1e-4` the source
keeps `w = 1` (its test is the strict `|w| > 1e-4`), while the claim's
`|w| ≥ 1e-4` performs the divide; the two screen positions differ. -/
theorem vertex_shader_divide_boundary_counterexample :
    (vertex_shader (fun _ => 0) cexVertex cexUniforms).transformed_position ≠
      claimed_screen_position cexVertex cexUniforms := by
  have habs : |(1/10000 : ℚ)| = 1/10000 := abs_of_nonneg (by norm_num)
  have hcode : (vertex_shader (fun _ => 0) cexVertex cexUniforms).transformed_position =
      ⟨20001/20000, 1, 0⟩ := by
    norm_num [vertex_shader, M4.mul, M4.mulVec, M4.identity, fclamp, cexVertex, cexUniforms,
      min_def, max_def, habs]
  have hspec : claimed_screen_position cexVertex cexUniforms = ⟨3/2, 1, 0⟩ := by
    norm_num [claimed_screen_position, M4.mul, M4.mulVec, M4.identity, fclamp, cexVertex,
      cexUniforms, min_def, max_def, habs]
  rw [hcode, hspec]
  intro h
  have hx := congrArg V3.x h
  norm_num at hx

/-- C2 (amended: the divide applies for `|w| > 1e-4` strictly, `w = 1` when
`|w| ≤ 1e-4`): for every vertex and uniforms the vertex shader's
`transformed_position` is exactly the clip → guarded-divide → double-clamp →
screen-mapping formula, never failing. -/
theorem vertex_shader_screen_position (sqrtFn : ℚ → ℚ) (vertex : Vertex)
    (uniforms : Uniforms) :
    (vertex_shader sqrtFn vertex uniforms).transformed_position =
      code_screen_position vertex uniforms := rfl

/-! ## Noise primitives (`src/fragment_shaders.rs`) and C8 -/

/-- `fragment_shaders.rs::hash`: sine-based scrambling, fractional part via
`x - x.floor()`. Real-valued (the code uses `f32::sin`). -/
noncomputable def hash (n : ℝ) : ℝ :=
  let x := Real.sin (n * 12.9898) * 43758.5453
  x - ⌊x⌋

/-- `fragment_shaders.rs::hash_vec3`. -/
noncomputable def hash_vec3 (p : V3 ℝ) : ℝ :=
  hash (p.x * 12.9898 + p.y * 78.233 + p.z * 45.164)

/-- `fragment_shaders.rs::smoothstep`. -/
noncomputable def smoothstep (edge0 edge1 x : ℝ) : ℝ :=
  let t := fclamp ((x - edge0) / (edge1 - edge0)) 0 1
  t * t * (3 - 2 * t)

/-- `fragment_shaders.rs::noise`: trilinear interpolation of the eight
lattice-corner hashes with smoothstep-eased fractional weights. -/
noncomputable def noise (p : V3 ℝ) : ℝ :=
  let i : V3 ℝ := ⟨⌊p.x⌋, ⌊p.y⌋, ⌊p.z⌋⟩
  let f : V3 ℝ := ⟨p.x - i.x, p.y - i.y, p.z - i.z⟩
  let u : V3 ℝ := ⟨smoothstep 0 1 f.x, smoothstep 0 1 f.y, smoothstep 0 1 f.z⟩
  let a := hash_vec3 i
  let b := hash_vec3 ⟨i.x + 1, i.y, i.z⟩
  let c := hash_vec3 ⟨i.x, i.y + 1, i.z⟩
  let d := hash_vec3 ⟨i.x + 1, i.y + 1, i.z⟩
  let e := hash_vec3 ⟨i.x, i.y, i.z + 1⟩
  let f_val := hash_vec3 ⟨i.x + 1, i.y, i.z + 1⟩
  let g := hash_vec3 ⟨i.x, i.y + 1, i.z + 1⟩
  let h := hash_vec3 ⟨i.x + 1, i.y + 1, i.z + 1⟩
  let x1 := a + (b - a) * u.x
  let x2 := c + (d - c) * u.x
  let y1 := x1 + (x2 - x1) * u.y
  let x3 := e + (f_val - e) * u.x
  let x4 := g + (h - g) * u.x
  let y2 := x3 + (x4 - x3) * u.y
  y1 + (y2 - y1) * u.z

lemma smoothstep_zero : smoothstep 0 1 0 = 0 := by
  norm_num [smoothstep, fclamp]

/-- C8: at a 3D integer lattice point the value noise collapses to the hash
of that corner — all eased fractional weights vanish. -/
theorem noise_at_lattice_point (p : V3 ℝ)
    (h : ∃ ix iy iz : ℤ, p.x = (ix : ℝ) ∧ p.y = (iy : ℝ) ∧ p.z = (iz : ℝ)) :
    noise p = hash_vec3 p := by
  obtain ⟨ix, iy, iz, hx, hy, hz⟩ := h
  have hfx : ((⌊p.x⌋ : ℤ) : ℝ) = p.x := by rw [hx, Int.floor_intCast]
  have hfy : ((⌊p.y⌋ : ℤ) : ℝ) = p.y := by rw [hy, Int.floor_intCast]
  have hfz : ((⌊p.z⌋ : ℤ) : ℝ) = p.z := by rw [hz, Int.floor_intCast]
  unfold noise
  rw [hfx, hfy, hfz]
  simp only [sub_self, smoothstep_zero, mul_zero, add_zero]

/-- Witness for C8 at the concrete lattice point `(1, 2, 3)`. -/
theorem noise_at_lattice_point_witness :
    (∃ ix iy iz : ℤ, (⟨1, 2, 3⟩ : V3 ℝ).x = (ix : ℝ) ∧ (⟨1, 2, 3⟩ : V3 ℝ).y = (iy : ℝ) ∧
      (⟨1, 2, 3⟩ : V3 ℝ).z = (iz : ℝ)) ∧
    noise ⟨1, 2, 3⟩ = hash_vec3 ⟨1, 2, 3⟩ :=
  ⟨⟨1, 2, 3, by norm_num, by norm_num, by norm_num⟩,
   noise_at_lattice_point ⟨1, 2, 3⟩ ⟨1, 2, 3, by norm_num, by norm_num, by norm_num⟩⟩

/-! ## Camera (`src/camera.rs`), over `ℝ` -/

/-- `nalgebra` `magnitude()` over `ℝ`. -/
noncomputable def magnitude (v : V3 ℝ) : ℝ := Real.sqrt (v.x ^ 2 + v.y ^ 2 + v.z ^ 2)

/-- Componentwise `vector / scalar`. -/
noncomputable def V3.divs (v : V3 ℝ) (k : ℝ) : V3 ℝ := ⟨v.x / k, v.y / k, v.z / k⟩

/-- `nalgebra` `normalize()` over `ℝ`. -/
noncomputable def V3.normalize (v : V3 ℝ) : V3 ℝ := V3.divs v (magnitude v)

/-- `f32::atan2`: `y.atan2(x)` is the angle of the point `(x, y)`, in
`(-π, π]`, with `atan2(0, 0) = 0` — exactly `Complex.arg ⟨x, y⟩`. -/
noncomputable def atan2 (y x : ℝ) : ℝ := Complex.arg ⟨x, y⟩

/-- `camera.rs::Camera`. -/
structure Camera where
  position : V3 ℝ
  target : V3 ℝ
  up : V3 ℝ
  fov : ℝ
  near : ℝ
  far : ℝ
  aspect : ℝ
  yaw : ℝ
  pitch : ℝ
  distance : ℝ
  follow_target : Option ℕ
  warp_target : Option (V3 ℝ)
  warp_start : Option (V3 ℝ)
  warp_progress : ℝ
  is_warping : Bool

/-- `Camera::new`. -/
noncomputable def Camera.new (width height : ℝ) : Camera :=
  let position : V3 ℝ := ⟨0, 200, 500⟩
  let target : V3 ℝ := ⟨0, 0, 0⟩
  let direction := V3.normalize (V3.sub target position)
  let yaw := atan2 direction.z direction.x
  let pitch := Real.arcsin direction.y
  let distance := magnitude (V3.sub target position)
  ⟨position, target, ⟨0, 1, 0⟩, 60, 1/10, 10000, width / height, yaw, pitch, distance,
   none, none, none, 0, false⟩

/-- `Camera::ease_in_out_cubic`. `(-2t+2).powf(3.0)` is an exact cube for
the nonnegative bases this is called with, modelled as `^ 3`. -/
noncomputable def Camera.ease_in_out_cubic (t : ℝ) : ℝ :=
  if t < 1/2 then 4 * t * t * t else 1 - (-2 * t + 2) ^ 3 / 2

/-- `Camera::sync_from_target`: resynchronize `yaw`/`pitch`/`distance` from
the position→target vector, guarded by `distance > 0.0`. -/
noncomputable def Camera.sync_from_target (c : Camera) : Camera :=
  let direction := V3.sub c.target c.position
  let distance := magnitude direction
  if distance > 0 then
    let dir_norm := V3.divs direction distance
    { c with distance := distance,
             yaw := atan2 dir_norm.z dir_norm.x,
             pitch := Real.arcsin dir_norm.y }
  else c

/-- `Camera::update`: advances warp only. The progress assignment happens in
every warping branch (the source assigns it before the `if let`); on
`progress ≥ 1` the position snaps exactly to the target, the warp state is
cleared and `sync_from_target` runs. -/
noncomputable def Camera.update (c : Camera) (delta_time : ℝ) : Camera :=
  if c.is_warping then
    let progress := min (c.warp_progress + delta_time * 2) 1
    match c.warp_start, c.warp_target with
    | some start, some target =>
      if 1 ≤ progress then
        Camera.sync_from_target
          { c with warp_progress := 0, position := target, is_warping := false,
                   warp_start := none, warp_target := none }
      else
        let t := Camera.ease_in_out_cubic progress
        { c with warp_progress := progress,
                 position := V3.add (V3.smul (1 - t) start) (V3.smul t target) }
    | _, _ => { c with warp_progress := progress, is_warping := false }
  else c

/-- `Camera::start_warp`. -/
def Camera.start_warp (c : Camera) (target : V3 ℝ) : Camera :=
  { c with warp_target := some target, warp_start := some c.position,
           warp_progress := 0, is_warping := true }

/-- `Camera::follow_body`. -/
noncomputable def Camera.follow_body (c : Camera) (body_position offset : V3 ℝ) : Camera :=
  Camera.sync_from_target
    { c with target := body_position, position := V3.add body_position offset }

/-- `Camera::forward_direction`. -/
noncomputable def Camera.forward_direction (c : Camera) : V3 ℝ :=
  ⟨Real.cos c.yaw * Real.cos c.pitch, Real.sin c.pitch, Real.sin c.yaw * Real.cos c.pitch⟩

/-- `Camera::update_direction`: recompute `target` from `yaw`/`pitch` at the
current `distance`. -/
noncomputable def Camera.update_direction (c : Camera) : Camera :=
  { c with target := V3.add c.position (V3.smul c.distance (Camera.forward_direction c)) }

/-- `Camera::rotate_yaw`. -/
noncomputable def Camera.rotate_yaw (c : Camera) (angle : ℝ) : Camera :=
  Camera.update_direction { c with yaw := c.yaw + angle }

/-- `Camera::rotate_pitch`: clamp to `[-1.57, 1.57]`, recompute target. -/
noncomputable def Camera.rotate_pitch (c : Camera) (angle : ℝ) : Camera :=
  Camera.update_direction { c with pitch := fclamp (c.pitch + angle) (-1.57) 1.57 }

/-- `Camera::check_collision`: pure predicate on the camera state (the Rust
method takes `&self` and mutates nothing). -/
noncomputable def Camera.check_collision (c : Camera) (center : V3 ℝ) (radius : ℝ) : Prop :=
  magnitude (V3.sub c.position center) < radius + 10

/-! ## C7 — pitch clamping -/

lemma rotate_pitch_pitch_bounds (c : Camera) (angle : ℝ) :
    -1.57 ≤ (Camera.rotate_pitch c angle).pitch ∧ (Camera.rotate_pitch c angle).pitch ≤ 1.57 := by
  unfold Camera.rotate_pitch Camera.update_direction fclamp
  exact ⟨le_max_left _ _, max_le (by norm_num) (min_le_right _ _)⟩

lemma foldl_rotate_pitch_bounds :
    ∀ (l : List ℝ), l ≠ [] → ∀ c : Camera,
      -1.57 ≤ (l.foldl Camera.rotate_pitch c).pitch ∧
      (l.foldl Camera.rotate_pitch c).pitch ≤ 1.57 := by
  intro l
  induction l with
  | nil => intro h; exact absurd rfl h
  | cons d l ih =>
    intro _ c
    rw [List.foldl_cons]
    cases l with
    | nil => exact rotate_pitch_pitch_bounds c d
    | cons e l2 => exact ih (by simp) (Camera.rotate_pitch c d)

/-- C7: after any `rotate_pitch` call the pitch lies in `[-1.57, 1.57]`;
consequently a sequence of `rotate_pitch` calls with positive deltas never
drives pitch above `+1.57`, and with negative deltas never below `-1.57`. -/
theorem rotate_pitch_clamped (c : Camera) (angle : ℝ) (l : List ℝ) (hl : l ≠ []) :
    (-1.57 ≤ (Camera.rotate_pitch c angle).pitch ∧
      (Camera.rotate_pitch c angle).pitch ≤ 1.57) ∧
    ((∀ d ∈ l, 0 < d) → (l.foldl Camera.rotate_pitch c).pitch ≤ 1.57) ∧
    ((∀ d ∈ l, d < 0) → -1.57 ≤ (l.foldl Camera.rotate_pitch c).pitch) :=
  ⟨rotate_pitch_pitch_bounds c angle,
   fun _ => (foldl_rotate_pitch_bounds l hl c).2,
   fun _ => (foldl_rotate_pitch_bounds l hl c).1⟩

/-- Concrete camera state used by the camera witnesses. -/
noncomputable def camW : Camera :=
  ⟨⟨5, 12, 0⟩, ⟨0, 0, 0⟩, ⟨0, 1, 0⟩, 60, 1/10, 10000, 4/3, 0, 0, 1,
   none, none, none, 0, false⟩

/-- Witness for C7 with the concrete camera, one delta, and a two-call
sequence of positive deltas. -/
theorem rotate_pitch_clamped_witness :
    ([(1 : ℝ), 2] ≠ []) ∧
    ((-1.57 ≤ (Camera.rotate_pitch camW 1).pitch ∧
      (Camera.rotate_pitch camW 1).pitch ≤ 1.57) ∧
     ((∀ d ∈ [(1 : ℝ), 2], 0 < d) →
       (([(1 : ℝ), 2]).foldl Camera.rotate_pitch camW).pitch ≤ 1.57) ∧
     ((∀ d ∈ [(1 : ℝ), 2], d < 0) →
       -1.57 ≤ (([(1 : ℝ), 2]).foldl Camera.rotate_pitch camW).pitch)) :=
  ⟨by simp, rotate_pitch_clamped camW 1 [1, 2] (by simp)⟩

/-! ## C6 — collision check -/

/-- C6: `check_collision(center, r)` holds iff the distance from the camera
position to `center` is strictly less than `r + 10.0`, and in particular it
is false when the distance equals `r + 10.0` exactly; the embedding is a
pure predicate, mirroring the `&self` receiver which mutates nothing. -/
theorem check_collision_iff (c : Camera) (center : V3 ℝ) (radius : ℝ) :
    (Camera.check_collision c center radius ↔
      magnitude (V3.sub c.position center) < radius + 10) ∧
    (magnitude (V3.sub c.position center) = radius + 10 →
      ¬Camera.check_collision c center radius) := by
  refine ⟨Iff.rfl, fun h hc => ?_⟩
  unfold Camera.check_collision at hc
  rw [h] at hc
  exact lt_irrefl _ hc

/-- Witness for C6: the camera at `(5, 12, 0)` is at distance exactly
`13 = 3 + 10` from the origin, and the collision check is false there. -/
theorem check_collision_iff_witness :
    magnitude (V3.sub camW.position ⟨0, 0, 0⟩) = 3 + 10 ∧
    ¬Camera.check_collision camW ⟨0, 0, 0⟩ 3 := by
  have hm : magnitude (V3.sub camW.position ⟨0, 0, 0⟩) = 13 := by
    unfold magnitude V3.sub camW
    norm_num
    rw [show (169 : ℝ) = 13 ^ 2 by norm_num, Real.sqrt_sq (by norm_num)]
  exact ⟨by rw [hm]; norm_num,
    (check_collision_iff camW ⟨0, 0, 0⟩ 3).2 (by rw [hm]; norm_num)⟩

/-! ## C1 — warp reaches the target exactly -/

lemma sync_from_target_preserves (c : Camera) :
    (Camera.sync_from_target c).position = c.position ∧
    (Camera.sync_from_target c).is_warping = c.is_warping := by
  unfold Camera.sync_from_target
  dsimp only
  split_ifs <;> exact ⟨rfl, rfl⟩

/-- The warp invariant: either the camera is still warping toward `T` with
enough remaining simulated time to finish, or it has already finished with
its position snapped to `T`. Folding `update` over the remaining deltas
lands in the finished state. -/
lemma warp_invariant (T : V3 ℝ) :
    ∀ (dts : List ℝ) (c : Camera), (∀ dt ∈ dts, 0 ≤ dt) →
      ((c.is_warping = true ∧ (∃ s, c.warp_start = some s) ∧ c.warp_target = some T ∧
        0 ≤ c.warp_progress ∧ c.warp_progress < 1 ∧ 1 ≤ c.warp_progress + 2 * dts.sum) ∨
       (c.is_warping = false ∧ c.position = T)) →
      (dts.foldl Camera.update c).is_warping = false ∧
      (dts.foldl Camera.update c).position = T := by
  intro dts
  induction dts with
  | nil =>
    intro c _ hinv
    rcases hinv with ⟨-, -, -, -, hlt, hge⟩ | ⟨hw, hp⟩
    · rw [List.sum_nil] at hge
      linarith
    · exact ⟨hw, hp⟩
  | cons dt dts ih =>
    intro c hpos hinv
    have hdt : 0 ≤ dt := hpos dt (List.mem_cons_self dt dts)
    have hpos' : ∀ d ∈ dts, 0 ≤ d := fun d hd => hpos d (List.mem_cons_of_mem dt hd)
    rw [List.foldl_cons]
    apply ih (Camera.update c dt) hpos'
    rcases hinv with ⟨hw, ⟨s, hs⟩, ht, h0, hlt, hge⟩ | ⟨hw, hp⟩
    · rw [List.sum_cons] at hge
      by_cases hdone : (1 : ℝ) ≤ min (c.warp_progress + dt * 2) 1
      · -- this update completes the warp
        right
        have hupdate : Camera.update c dt = Camera.sync_from_target
            { c with warp_progress := 0, position := T, is_warping := false,
                     warp_start := none, warp_target := none } := by
          unfold Camera.update
          rw [hw, hs, ht]
          simp only [if_true]
          rw [if_pos hdone]
        rw [hupdate]
        obtain ⟨hpres, hwarp⟩ := sync_from_target_preserves
          { c with warp_progress := 0, position := T, is_warping := false,
                   warp_start := none, warp_target := none }
        exact ⟨hwarp, hpres⟩
      · -- still warping: progress strictly advances, finish time still covered
        left
        have hmin : min (c.warp_progress + dt * 2) 1 = c.warp_progress + dt * 2 := by
          rcases min_cases (c.warp_progress + dt * 2) (1 : ℝ) with ⟨h1, -⟩ | ⟨h1, h2⟩
          · exact h1
          · exact absurd (h1 ▸ le_refl 1) (by rw [h1] at hdone; exact fun _ => hdone le_rfl)
        have hupdate : Camera.update c dt =
            { c with warp_progress := min (c.warp_progress + dt * 2) 1,
                     position := V3.add
                       (V3.smul (1 - Camera.ease_in_out_cubic
                         (min (c.warp_progress + dt * 2) 1)) s)
                       (V3.smul (Camera.ease_in_out_cubic
                         (min (c.warp_progress + dt * 2) 1)) T) } := by
          unfold Camera.update
          rw [hw, hs, ht]
          simp only [if_true]
          rw [if_neg hdone]
        rw [hupdate]
        refine ⟨hw, ⟨s, hs⟩, ht, ?_, ?_, ?_⟩
        · simp only [hmin]
          linarith
        · simp only [hmin]
          rw [hmin] at hdone
          linarith
        · simp only [hmin]
          linarith
    · -- warp already finished: update is the identity on a non-warping camera
      right
      have hupdate : Camera.update c dt = c := by
        unfold Camera.update
        rw [hw]
        simp
      rw [hupdate]
      exact ⟨hw, hp⟩

/-- C1: `start_warp(T)` followed by any sequence of `update(dt)` calls with
nonnegative deltas whose total simulated time is at least `0.5` s (progress
rate `2.0`/s) ends with `is_warping = false` and the position exactly equal
to `T`. -/
theorem warp_reaches_target_exactly (c : Camera) (T : V3 ℝ) (dts : List ℝ)
    (hpos : ∀ dt ∈ dts, 0 ≤ dt) (hsum : 1/2 ≤ dts.sum) :
    (dts.foldl Camera.update (Camera.start_warp c T)).is_warping = false ∧
    (dts.foldl Camera.update (Camera.start_warp c T)).position = T := by
  apply warp_invariant T dts (Camera.start_warp c T) hpos
  left
  unfold Camera.start_warp
  refine ⟨rfl, ⟨c.position, rfl⟩, rfl, le_refl 0, by norm_num, ?_⟩
  show (1 : ℝ) ≤ 0 + 2 * dts.sum
  linarith

/-- Witness for C1: the concrete camera, target `(1, 2, 3)`, and a single
`update(1.0)` call (1 s ≥ 0.5 s of simulated time). -/
theorem warp_reaches_target_exactly_witness :
    (∀ dt ∈ [(1 : ℝ)], 0 ≤ dt) ∧ (1/2 : ℝ) ≤ ([(1 : ℝ)]).sum ∧
    (([(1 : ℝ)]).foldl Camera.update (Camera.start_warp camW ⟨1, 2, 3⟩)).is_warping = false ∧
    (([(1 : ℝ)]).foldl Camera.update (Camera.start_warp camW ⟨1, 2, 3⟩)).position = ⟨1, 2, 3⟩ := by
  refine ⟨by norm_num, by norm_num, ?_⟩
  exact warp_reaches_target_exactly camW ⟨1, 2, 3⟩ [1] (by norm_num) (by norm_num)

/-! ## C5 — follow_body resynchronizes yaw/pitch/distance -/

/-- The spherical angles `yaw = atan2(z, x)`, `pitch = asin(y)` of a unit
vector reproduce that vector through `forward_direction`'s formula. -/
lemma forward_formula_of_unit (d : V3 ℝ) (hunit : d.x ^ 2 + d.y ^ 2 + d.z ^ 2 = 1) :
    (⟨Real.cos (atan2 d.z d.x) * Real.cos (Real.arcsin d.y),
      Real.sin (Real.arcsin d.y),
      Real.sin (atan2 d.z d.x) * Real.cos (Real.arcsin d.y)⟩ : V3 ℝ) = d := by
  have hy2 : d.y ^ 2 ≤ 1 := by nlinarith [sq_nonneg d.x, sq_nonneg d.z]
  have hy1 : |d.y| ≤ 1 := (sq_le_one_iff_abs_le_one d.y).mp hy2
  have hsin : Real.sin (Real.arcsin d.y) = d.y :=
    Real.sin_arcsin (abs_le.mp hy1).1 (abs_le.mp hy1).2
  have hcos : Real.cos (Real.arcsin d.y) = Real.sqrt (1 - d.y ^ 2) := Real.cos_arcsin d.y
  have h1m : 1 - d.y ^ 2 = d.x ^ 2 + d.z ^ 2 := by linarith
  have habs : Complex.abs ⟨d.x, d.z⟩ = Real.sqrt (d.x ^ 2 + d.z ^ 2) := by
    rw [Complex.abs_apply, Complex.normSq_mk]
    congr 1
    ring
  by_cases hz : (⟨d.x, d.z⟩ : ℂ) = 0
  · have hx0 : d.x = 0 := by
      have := congrArg Complex.re hz
      simpa using this
    have hz0 : d.z = 0 := by
      have := congrArg Complex.im hz
      simpa using this
    have hcp0 : Real.cos (Real.arcsin d.y) = 0 := by
      rw [hcos, h1m, hx0, hz0]
      norm_num
    ext
    · dsimp only
      rw [hcp0, mul_zero]
      exact hx0.symm
    · exact hsin
    · dsimp only
      rw [hcp0, mul_zero]
      exact hz0.symm
  · have hr : Real.sqrt (d.x ^ 2 + d.z ^ 2) ≠ 0 := by
      rw [← habs]
      exact Complex.abs.ne_zero hz
    have hcosyaw : Real.cos (atan2 d.z d.x) = d.x / Real.sqrt (d.x ^ 2 + d.z ^ 2) := by
      unfold atan2
      rw [Complex.cos_arg hz, habs]
    have hsinyaw : Real.sin (atan2 d.z d.x) = d.z / Real.sqrt (d.x ^ 2 + d.z ^ 2) := by
      unfold atan2
      rw [Complex.sin_arg, habs]
    ext
    · dsimp only
      rw [hcosyaw, hcos, h1m]
      exact div_mul_cancel₀ d.x hr
    · exact hsin
    · dsimp only
      rw [hsinyaw, hcos, h1m]
      exact div_mul_cancel₀ d.z hr

/-- `sync_from_target`, when the position→target vector is nonzero, sets
`distance` to that vector's magnitude and `yaw`/`pitch` so that
`forward_direction` is exactly the normalized position→target vector; it
moves neither `position` nor `target`. -/
lemma sync_from_target_resync (c : Camera)
    (h : magnitude (V3.sub c.target c.position) > 0) :
    (Camera.sync_from_target c).distance = magnitude (V3.sub c.target c.position) ∧
    Camera.forward_direction (Camera.sync_from_target c) =
      V3.divs (V3.sub c.target c.position) (magnitude (V3.sub c.target c.position)) ∧
    (Camera.sync_from_target c).target = c.target ∧
    (Camera.sync_from_target c).position = c.position := by
  unfold Camera.sync_from_target
  dsimp only
  rw [if_pos h]
  refine ⟨rfl, ?_, rfl, rfl⟩
  unfold Camera.forward_direction
  dsimp only
  apply forward_formula_of_unit
  have hm2 : magnitude (V3.sub c.target c.position) ^ 2 =
      (V3.sub c.target c.position).x ^ 2 + (V3.sub c.target c.position).y ^ 2 +
      (V3.sub c.target c.position).z ^ 2 := by
    unfold magnitude
    exact Real.sq_sqrt (by positivity)
  have hmne : magnitude (V3.sub c.target c.position) ≠ 0 := ne_of_gt h
  dsimp [V3.divs]
  field_simp
  linarith [hm2]

/-- C5 (amended: for nonzero offsets; a zero offset leaves the `distance
> 0` guard of `sync_from_target` unsatisfied and resynchronizes nothing):
`follow_body(pos, offset)` sets `target = pos`, `position = pos + offset`,
and resynchronizes `yaw`/`pitch`/`distance` from the position→target
vector, so that `distance = |offset|` and `(yaw, pitch)` parameterize the
position→target direction. -/
theorem follow_body_resynchronizes (c : Camera) (pos offset : V3 ℝ)
    (h : offset ≠ ⟨0, 0, 0⟩) :
    (Camera.follow_body c pos offset).target = pos ∧
    (Camera.follow_body c pos offset).position = V3.add pos offset ∧
    (Camera.follow_body c pos offset).distance = magnitude offset ∧
    Camera.forward_direction (Camera.follow_body c pos offset) =
      V3.divs (V3.sub (Camera.follow_body c pos offset).target
          (Camera.follow_body c pos offset).position)
        (magnitude (V3.sub (Camera.follow_body c pos offset).target
          (Camera.follow_body c pos offset).position)) := by
  have hS : 0 < offset.x ^ 2 + offset.y ^ 2 + offset.z ^ 2 := by
    by_contra hle
    push_neg at hle
    have hx2 : offset.x ^ 2 = 0 :=
      le_antisymm (by nlinarith [sq_nonneg offset.y, sq_nonneg offset.z]) (sq_nonneg _)
    have hy2 : offset.y ^ 2 = 0 :=
      le_antisymm (by nlinarith [sq_nonneg offset.x, sq_nonneg offset.z]) (sq_nonneg _)
    have hz2 : offset.z ^ 2 = 0 :=
      le_antisymm (by nlinarith [sq_nonneg offset.x, sq_nonneg offset.y]) (sq_nonneg _)
    apply h
    ext
    · show offset.x = 0
      exact sq_eq_zero_iff.mp hx2
    · show offset.y = 0
      exact sq_eq_zero_iff.mp hy2
    · show offset.z = 0
      exact sq_eq_zero_iff.mp hz2
  have hdir : V3.sub pos (V3.add pos offset) = ⟨-offset.x, -offset.y, -offset.z⟩ := by
    ext <;> simp [V3.sub, V3.add]
  have hmagneg : magnitude ⟨-offset.x, -offset.y, -offset.z⟩ = magnitude offset := by
    unfold magnitude
    congr 1
    ring
  have hm : 0 < magnitude offset := by
    unfold magnitude
    exact Real.sqrt_pos.mpr hS
  have hc2 : Camera.follow_body c pos offset = Camera.sync_from_target
      { c with target := pos, position := V3.add pos offset } := rfl
  obtain ⟨hd, hf, ht, hp⟩ := sync_from_target_resync
    { c with target := pos, position := V3.add pos offset }
    (by show magnitude (V3.sub pos (V3.add pos offset)) > 0
        rw [hdir, hmagneg]
        exact hm)
  rw [hc2]
  refine ⟨ht, hp, ?_, ?_⟩
  · rw [hd]
    show magnitude (V3.sub pos (V3.add pos offset)) = magnitude offset
    rw [hdir, hmagneg]
  · rw [hf, ht, hp]

/-- Counterexample to C5 as stated (for *every* offset): with the zero
offset the position→target vector is zero, the `distance > 0.0` guard in
`sync_from_target` fails, and `distance` keeps its old value — here the
freshly constructed camera's `√290000` — instead of `|offset| = 0`. -/
theorem follow_body_zero_offset_counterexample :
    ((Camera.new 800 600).follow_body ⟨1, 2, 3⟩ ⟨0, 0, 0⟩).distance ≠
      magnitude (⟨0, 0, 0⟩ : V3 ℝ) := by
  have hmag0 : magnitude (⟨0, 0, 0⟩ : V3 ℝ) = 0 := by
    unfold magnitude
    norm_num
  rw [hmag0]
  have hdir : V3.sub (⟨1, 2, 3⟩ : V3 ℝ) (V3.add ⟨1, 2, 3⟩ ⟨0, 0, 0⟩) = ⟨0, 0, 0⟩ := by
    ext <;> norm_num [V3.sub, V3.add]
  have hsync : (Camera.new 800 600).follow_body ⟨1, 2, 3⟩ ⟨0, 0, 0⟩ =
      { (Camera.new 800 600) with
          target := ⟨1, 2, 3⟩,
          position := V3.add ⟨1, 2, 3⟩ ⟨0, 0, 0⟩ } := by
    show Camera.sync_from_target _ = _
    unfold Camera.sync_from_target
    dsimp only
    rw [hdir, hmag0, if_neg (lt_irrefl 0)]
  rw [hsync]
  show (Camera.new 800 600).distance ≠ 0
  unfold Camera.new
  dsimp only
  unfold magnitude V3.sub
  dsimp only
  norm_num

/-- Witness for C5 (amended) at the concrete camera, body position
`(1, 2, 3)` and nonzero offset `(0, 3, 4)`. -/
theorem follow_body_resynchronizes_witness :
    ((⟨0, 3, 4⟩ : V3 ℝ) ≠ ⟨0, 0, 0⟩) ∧
    ((Camera.follow_body camW ⟨1, 2, 3⟩ ⟨0, 3, 4⟩).target = ⟨1, 2, 3⟩ ∧
     (Camera.follow_body camW ⟨1, 2, 3⟩ ⟨0, 3, 4⟩).position = V3.add ⟨1, 2, 3⟩ ⟨0, 3, 4⟩ ∧
     (Camera.follow_body camW ⟨1, 2, 3⟩ ⟨0, 3, 4⟩).distance = magnitude ⟨0, 3, 4⟩ ∧
     Camera.forward_direction (Camera.follow_body camW ⟨1, 2, 3⟩ ⟨0, 3, 4⟩) =
       V3.divs (V3.sub (Camera.follow_body camW ⟨1, 2, 3⟩ ⟨0, 3, 4⟩).target
           (Camera.follow_body camW ⟨1, 2, 3⟩ ⟨0, 3, 4⟩).position)
         (magnitude (V3.sub (Camera.follow_body camW ⟨1, 2, 3⟩ ⟨0, 3, 4⟩).target
           (Camera.follow_body camW ⟨1, 2, 3⟩ ⟨0, 3, 4⟩).position))) := by
  have hne : (⟨0, 3, 4⟩ : V3 ℝ) ≠ ⟨0, 0, 0⟩ := by
    intro hEq
    have := congrArg V3.y hEq
    norm_num at this
  exact ⟨hne, follow_body_resynchronizes camW ⟨1, 2, 3⟩ ⟨0, 3, 4⟩ hne⟩
